import Mathlib

/-!
Verification of the sleuth live-instrumentation engine.

The development shallowly embeds the two core subsystems of the repository:

* the source-injection engine of `sleuth/inject.py` (the `_Injector`
  registry, the action variants `_Break`, `_Print`, `_Log`, `_Call`,
  `_Inject`, the source rewriter `inject_hooks`, and the runtime
  dispatcher `_Injector.hook`), and

* the object-graph scope resolver and patcher of `sleuth/wrap.py`
  (`_search`, `_get_parent_scope`, `tap`, `callOnException`), together
  with the older resolver iteration in the top-level `sleuth.py`
  (qualname fast path).

Python dictionaries are modelled as association lists with unique-key
update semantics, frames as a pair of such dictionaries, exceptions as
`Except`/`Option` error values, and the live object graph as node ids
with an attribute table.
-/

namespace Sleuth

/-! ## Python dictionaries as association lists -/

/-- A Python `dict` mapping `str` keys to (rendered) values. -/
abbrev Dict := List (String × String)

/-- `d[k]` lookup: first binding wins (a well-formed dict has unique keys). -/
def dictGet : Dict → String → Option String
  | [], _ => none
  | p :: rest, k => if p.1 = k then some p.2 else dictGet rest k

/-- `d[k] = v`: replace the binding in place if present, else append.
A well-formed dict has unique keys, so replacing the first occurrence
is Python's behaviour. -/
def dictSet : Dict → String → String → Dict
  | [], k, v => [(k, v)]
  | p :: rest, k, v => if p.1 = k then (k, v) :: rest else p :: dictSet rest k v

/-- `d.update(other)`: set every binding of `other` into `d`, in order. -/
def dictUpdate (d other : Dict) : Dict :=
  other.foldl (fun acc p => dictSet acc p.1 p.2) d

theorem dictGet_dictSet_self (d : Dict) (k v : String) :
    dictGet (dictSet d k v) k = some v := by
  induction d with
  | nil => simp [dictSet, dictGet]
  | cons hd tl ih =>
    by_cases hhd : hd.1 = k
    · simp [dictSet, dictGet, hhd]
    · simp [dictSet, dictGet, hhd, ih]

theorem dictGet_dictSet_ne (d : Dict) (k v k' : String) (h : k' ≠ k) :
    dictGet (dictSet d k v) k' = dictGet d k' := by
  induction d with
  | nil => simp [dictSet, dictGet, Ne.symm h]
  | cons hd tl ih =>
    by_cases hhd : hd.1 = k
    · simp [dictSet, hhd, dictGet, Ne.symm h]
    · by_cases hk' : hd.1 = k'
      · simp [dictSet, hhd, dictGet, hk', h]
      · simp [dictSet, hhd, dictGet, hk', ih]

theorem dictGet_dictUpdate_of_not_mem (d : Dict) (l : Dict) (k : String)
    (h : ∀ p ∈ l, p.1 ≠ k) :
    dictGet (dictUpdate d l) k = dictGet d k := by
  induction l generalizing d with
  | nil => rfl
  | cons hd tl ih =>
    have hhd : hd.1 ≠ k := h hd (by simp)
    have htl : ∀ p ∈ tl, p.1 ≠ k := fun p hp => h p (by simp [hp])
    show dictGet (dictUpdate (dictSet d hd.1 hd.2) tl) k = dictGet d k
    rw [ih _ htl, dictGet_dictSet_ne _ _ _ _ (fun hc => hhd hc.symm)]

theorem dictGet_dictUpdate_of_mem (d : Dict) (l : Dict) (k v : String)
    (hnd : (l.map Prod.fst).Nodup) (h : dictGet l k = some v) :
    dictGet (dictUpdate d l) k = some v := by
  induction l generalizing d with
  | nil => simp [dictGet] at h
  | cons hd tl ih =>
    have hndtl : (tl.map Prod.fst).Nodup := (List.nodup_cons.mp hnd).2
    by_cases hhd : hd.1 = k
    · have hv : v = hd.2 := by
        rw [dictGet, if_pos hhd] at h
        exact (Option.some_inj.mp h).symm
      have hnotin : ∀ p ∈ tl, p.1 ≠ k := by
        intro p hp hc
        have : hd.1 ∈ tl.map Prod.fst := by
          rw [hhd, ← hc]; exact List.mem_map_of_mem _ hp
        exact (List.nodup_cons.mp hnd).1 this
      show dictGet (dictUpdate (dictSet d hd.1 hd.2) tl) k = some v
      rw [dictGet_dictUpdate_of_not_mem _ _ _ hnotin, hhd,
        dictGet_dictSet_self, hv]
    · have htl : dictGet tl k = some v := by
        rw [dictGet, if_neg hhd] at h
        exact h
      show dictGet (dictUpdate (dictSet d hd.1 hd.2) tl) k = some v
      exact ih _ hndtl htl

/-! ## Python `str.format` on named fields

`_Print` and `_Log` render their template with `fmtStr.format(**vars_)`.
The renderer is embedded as a single left-to-right scan: `{name}`
substitutes the binding of `name` and raises `KeyError(name)` when the
name is unbound; `{{` and `}}` are literal braces; a stray brace raises
`ValueError`.  The brace characters are spelled via their code points. -/

def lbrace : Char := Char.ofNat 123

def rbrace : Char := Char.ofNat 125

/-- A failure raised by `str.format`: an unbound field name
(`KeyError`) or a malformed template (`ValueError`).  The spec's error
taxonomy calls the first of these `FormatError`. -/
inductive FmtError where
  | keyError (name : String)
  | valueError
deriving DecidableEq, Repr

/-- Scanner state: in plain text, just after `{`, just after `}`, or
inside a field name (accumulated in reverse). -/
inductive FmtState where
  | text
  | afterL
  | afterR
  | name (accRev : List Char)
deriving DecidableEq, Repr

def renderFrom (ctx : Dict) : List Char → FmtState → Except FmtError (List Char)
  | [], .text => .ok []
  | [], _ => .error .valueError
  | c :: cs, .text =>
    if c = lbrace then renderFrom ctx cs .afterL
    else if c = rbrace then renderFrom ctx cs .afterR
    else (c :: ·) <$> renderFrom ctx cs .text
  | c :: cs, .afterL =>
    if c = lbrace then (lbrace :: ·) <$> renderFrom ctx cs .text
    else if c = rbrace then
      match dictGet ctx "" with
      | none => .error (.keyError "")
      | some v => (v.data ++ ·) <$> renderFrom ctx cs .text
    else renderFrom ctx cs (.name [c])
  | c :: cs, .afterR =>
    if c = rbrace then (rbrace :: ·) <$> renderFrom ctx cs .text
    else .error .valueError
  | c :: cs, .name accRev =>
    if c = rbrace then
      match dictGet ctx (String.mk accRev.reverse) with
      | none => .error (.keyError (String.mk accRev.reverse))
      | some v => (v.data ++ ·) <$> renderFrom ctx cs .text
    else if c = lbrace then .error .valueError
    else renderFrom ctx cs (.name (c :: accRev))

/-- `fmtStr.format(**ctx)`. -/
def pyFormat (ctx : Dict) (fmtStr : String) : Except FmtError String :=
  String.mk <$> renderFrom ctx fmtStr.data .text

/-- The field names a template references, in the order the renderer
meets them, stopping at the first malformed spot. -/
def refsFrom : List Char → FmtState → List String
  | [], _ => []
  | c :: cs, .text =>
    if c = lbrace then refsFrom cs .afterL
    else if c = rbrace then refsFrom cs .afterR
    else refsFrom cs .text
  | c :: cs, .afterL =>
    if c = lbrace then refsFrom cs .text
    else if c = rbrace then "" :: refsFrom cs .text
    else refsFrom cs (.name [c])
  | c :: cs, .afterR =>
    if c = rbrace then refsFrom cs .text
    else []
  | c :: cs, .name accRev =>
    if c = rbrace then String.mk accRev.reverse :: refsFrom cs .text
    else if c = lbrace then []
    else refsFrom cs (.name (c :: accRev))

/-- Template field names of `fmtStr`. -/
def templateRefs (fmtStr : String) : List String :=
  refsFrom fmtStr.data .text

/-- A template that references an unbound name fails to render: the
scan stops at the first unbound field with a `KeyError`. -/
theorem renderFrom_unbound (ctx : Dict) (nm : String)
    (hmiss : dictGet ctx nm = none) :
    ∀ cs st, nm ∈ refsFrom cs st →
      ∃ nm', renderFrom ctx cs st = .error (.keyError nm') := by
  intro cs
  induction cs with
  | nil => intro st h; simp [refsFrom] at h
  | cons c cs ih =>
    intro st h
    match st with
    | .text =>
      by_cases hl : c = lbrace
      · simp only [refsFrom, if_pos hl] at h
        simpa [renderFrom, if_pos hl] using ih _ h
      · by_cases hr : c = rbrace
        · simp only [refsFrom, if_neg hl, if_pos hr] at h
          simpa [renderFrom, if_neg hl, if_pos hr] using ih _ h
        · simp only [refsFrom, if_neg hl, if_neg hr] at h
          obtain ⟨nm', h'⟩ := ih _ h
          exact ⟨nm', by simp [renderFrom, if_neg hl, if_neg hr, h']⟩
    | .afterL =>
      by_cases hl : c = lbrace
      · simp only [refsFrom, if_pos hl] at h
        obtain ⟨nm', h'⟩ := ih _ h
        exact ⟨nm', by simp [renderFrom, if_pos hl, h']⟩
      · by_cases hr : c = rbrace
        · simp only [refsFrom, if_neg hl, if_pos hr, List.mem_cons] at h
          rcases h with h | h
          · refine ⟨nm, ?_⟩
            rw [h] at hmiss
            simp [renderFrom, if_neg hl, if_pos hr, hmiss, h]
          · obtain ⟨nm', h'⟩ := ih _ h
            cases hg : dictGet ctx "" with
            | none => exact ⟨"", by simp [renderFrom, if_neg hl, if_pos hr, hg]⟩
            | some v =>
              exact ⟨nm', by simp [renderFrom, if_neg hl, if_pos hr, hg, h']⟩
        · simp only [refsFrom, if_neg hl, if_neg hr] at h
          simpa [renderFrom, if_neg hl, if_neg hr] using ih _ h
    | .afterR =>
      by_cases hr : c = rbrace
      · simp only [refsFrom, if_pos hr] at h
        obtain ⟨nm', h'⟩ := ih _ h
        exact ⟨nm', by simp [renderFrom, if_pos hr, h']⟩
      · simp only [refsFrom, if_neg hr] at h
        simp at h
    | .name accRev =>
      by_cases hr : c = rbrace
      · simp only [refsFrom, if_pos hr, List.mem_cons] at h
        rcases h with h | h
        · refine ⟨nm, ?_⟩
          rw [h] at hmiss
          simp [renderFrom, if_pos hr, hmiss, h]
        · obtain ⟨nm', h'⟩ := ih _ h
          cases hg : dictGet ctx (String.mk accRev.reverse) with
          | none =>
            exact ⟨String.mk accRev.reverse,
              by simp [renderFrom, if_pos hr, hg]⟩
          | some v => exact ⟨nm', by simp [renderFrom, if_pos hr, hg, h']⟩
      · by_cases hl : c = lbrace
        · simp only [refsFrom, if_pos hl, if_neg hr] at h
          simp at h
        · simp only [refsFrom, if_neg hr, if_neg hl] at h
          simpa [renderFrom, if_neg hr, if_neg hl] using ih _ h

theorem pyFormat_unbound (ctx : Dict) (fmtStr : String) (nm : String)
    (href : nm ∈ templateRefs fmtStr) (hmiss : dictGet ctx nm = none) :
    ∃ nm', pyFormat ctx fmtStr = .error (.keyError nm') := by
  obtain ⟨nm', h⟩ := renderFrom_unbound ctx nm hmiss fmtStr.data .text href
  exact ⟨nm', by simp [pyFormat, h]⟩

/-! ## Frames, actions and the dispatcher (`sleuth/inject.py`)

An execution frame carries its real globals and locals dictionaries.
`_Print`, `_Log` and `_Call` all begin with

    vars_ = frame.f_globals
    vars_.update(frame.f_locals)

which mutates the frame's actual globals dict; the embedding therefore
returns an updated frame from every action application.  Exceptions
raised inside an action are modelled as an `Err` carried out of the
application; the dispatcher has no handler for them. -/

structure Frame where
  f_globals : Dict
  f_locals : Dict
deriving DecidableEq, Repr

/-- An exception escaping an action: a `str.format` failure, a failed
dict subscript (`vars_[name]`), or an exception raised by a user
callable or injected code fragment (identified by an opaque code). -/
inductive Err where
  | fmt (e : FmtError)
  | subscript (name : String)
  | userExc (code : Nat)
deriving DecidableEq, Repr

/-- An observable side effect of an action: text printed to stdout or
appended to a file, a log record, a user callable invoked with resolved
arguments, or a debugger break. -/
inductive Event where
  | printed (file : Option String) (text : String)
  | logged (logName : String) (level : Nat) (msg : String)
  | called (funcId : Nat) (args : List String) (kwargs : List (String × String))
  | broke (debugger : String)
deriving DecidableEq, Repr

/-- The action variants of `sleuth/inject.py`: `_Break`, `_Print`,
`_Log`, `_Call` (with positional and keyword binding names) and
`_Inject` (opaque compiled code). -/
inductive Action where
  | brk (debugger : String)
  | print (fmtStr : String) (file : Option String)
  | log (fmtStr : String) (level : Nat) (logName : Option String)
  | call (funcId : Nat) (args : List String) (kwargs : List (String × String))
  | inj (code : Nat)
deriving DecidableEq, Repr

/-- Semantics of the opaque parts: what a user callable does when
invoked (`none` = returns normally, result discarded; `some e` =
raises), and what an injected code fragment does to the globals and
locals dicts it is `exec`uted against. -/
structure Env where
  callSem : Nat → List String → List (String × String) → Option Err
  codeSem : Nat → Dict → Dict → Except Err (Dict × Dict)

/-- Outcome of applying one action to a frame: the (possibly mutated)
frame, the effects emitted before any exception, and the exception if
one was raised. -/
structure ActionResult where
  frame : Frame
  events : List Event
  err : Option Err
deriving Repr

/-- Resolve a list of names against `vars_`, as the list comprehension
`[vars_[arg] for arg in self._args]`: raises on the first missing name. -/
def resolveArgs (vars_ : Dict) : List String → Except Err (List String)
  | [] => .ok []
  | a :: rest =>
    match dictGet vars_ a with
    | none => .error (.subscript a)
    | some v =>
      match resolveArgs vars_ rest with
      | .error e => .error e
      | .ok vs => .ok (v :: vs)

/-- Resolve keyword bindings, as
`{key: vars_[val] for key, val in self._kwargs.items()}`. -/
def resolveKwargs (vars_ : Dict) :
    List (String × String) → Except Err (List (String × String))
  | [] => .ok []
  | (key, val) :: rest =>
    match dictGet vars_ val with
    | none => .error (.subscript val)
    | some v =>
      match resolveKwargs vars_ rest with
      | .error e => .error e
      | .ok vs => .ok ((key, v) :: vs)

/-- `action(frame)` for each `_Action.__call__` of `sleuth/inject.py`.
`_Print`, `_Log` and `_Call` first merge the locals into the frame's
real globals dict; `_Inject` `exec`s its code against the two dicts
unmerged; `_Break` enters the debugger. -/
def applyAction (env : Env) (a : Action) (fr : Frame) : ActionResult :=
  match a with
  | .brk debugger => ⟨fr, [.broke debugger], none⟩
  | .print fmtStr file =>
    let vars_ := dictUpdate fr.f_globals fr.f_locals
    let fr' : Frame := ⟨vars_, fr.f_locals⟩
    match pyFormat vars_ fmtStr with
    | .error e => ⟨fr', [], some (.fmt e)⟩
    | .ok text => ⟨fr', [.printed file text], none⟩
  | .log fmtStr level logName =>
    let vars_ := dictUpdate fr.f_globals fr.f_locals
    let fr' : Frame := ⟨vars_, fr.f_locals⟩
    let nameRes : Except Err String :=
      match logName with
      | some n => .ok n
      | none =>
        match dictGet vars_ "__name__" with
        | some n => .ok n
        | none => .error (.subscript "__name__")
    match nameRes with
    | .error e => ⟨fr', [], some e⟩
    | .ok logNm =>
      match pyFormat vars_ fmtStr with
      | .error e => ⟨fr', [], some (.fmt e)⟩
      | .ok msg => ⟨fr', [.logged logNm level msg], none⟩
  | .call funcId argNames kwNames =>
    let vars_ := dictUpdate fr.f_globals fr.f_locals
    let fr' : Frame := ⟨vars_, fr.f_locals⟩
    match resolveArgs vars_ argNames with
    | .error e => ⟨fr', [], some e⟩
    | .ok args =>
      match resolveKwargs vars_ kwNames with
      | .error e => ⟨fr', [], some e⟩
      | .ok kwargs =>
        match env.callSem funcId args kwargs with
        | some e => ⟨fr', [], some e⟩
        | none => ⟨fr', [.called funcId args kwargs], none⟩
  | .inj code =>
    match env.codeSem code fr.f_globals fr.f_locals with
    | .error e => ⟨fr, [], some e⟩
    | .ok (g, l) => ⟨⟨g, l⟩, [], none⟩

/-- Outcome of a dispatcher firing: final frame, effects in order, the
actions that actually ran (in order), and the exception that escaped,
if any. -/
structure RunState where
  frame : Frame
  events : List Event
  fired : List Action
  err : Option Err
deriving Repr

/-- The dispatcher loop `for action in self._actions[filename][lineno]:
action(frame)`: actions run left to right; an exception stops the loop
and escapes. -/
def runActions (env : Env) : List Action → Frame → RunState
  | [], fr => ⟨fr, [], [], none⟩
  | a :: rest, fr =>
    let r := applyAction env a fr
    match r.err with
    | some e => ⟨r.frame, r.events, [a], some e⟩
    | none =>
      let s := runActions env rest r.frame
      ⟨s.frame, r.events ++ s.events, a :: s.fired, s.err⟩

/-- The `_Injector` registry: the registration log (each `add` appends
one entry), the commented-out locations, and the global gate. -/
structure Injector where
  actions : List ((String × Nat) × Action)
  commented : List (String × Nat)
  enabled : Bool
deriving DecidableEq, Repr

/-- `self._actions[filename][line].append(action)`. -/
def Injector.add (inj : Injector) (filename : String) (line : Nat)
    (a : Action) : Injector :=
  { inj with actions := inj.actions ++ [((filename, line), a)] }

/-- `self._commented.add((filename, line))`. -/
def Injector.comment (inj : Injector) (filename : String) (line : Nat) :
    Injector :=
  { inj with commented := inj.commented ++ [(filename, line)] }

def Injector.enable (inj : Injector) : Injector := { inj with enabled := true }

def Injector.disable (inj : Injector) : Injector := { inj with enabled := false }

/-- The ordered action list `self._actions[filename][line]`: the
registrations at one location, in registration order. -/
def actionsAt (inj : Injector) (filename : String) (line : Nat) :
    List Action :=
  inj.actions.filterMap
    (fun p => if p.1 = (filename, line) then some p.2 else none)

/-- `_Injector.hook`: gate check, then run the location's actions. -/
def Injector.hook (env : Env) (inj : Injector) (filename : String)
    (line : Nat) (fr : Frame) : RunState :=
  if inj.enabled then runActions env (actionsAt inj filename line) fr
  else ⟨fr, [], [], none⟩

/-! ## The source rewriter `_Injector.inject_hooks`

The Python loop reads the file line by line (`enumerate(f, start=1)`),
computes the line's leading whitespace, replaces a commented-out line
by `indent + '# ' + line.lstrip()`, and, when the line number has
registered actions, prepends `indent` followed by the hook-invocation
statement to the (possibly commented) line.  Lines are modelled as the
strings Python iteration yields (terminator included). -/

/-- Python `str.isspace` characters relevant to `lstrip()`. -/
def pySpace (c : Char) : Bool :=
  c = ' ' || c = Char.ofNat 9 || c = Char.ofNat 10 || c = Char.ofNat 13 ||
    c = Char.ofNat 11 || c = Char.ofNat 12

/-- `line.lstrip()`. -/
def pyLstrip (s : String) : String := String.mk (s.data.dropWhile pySpace)

/-- `line[0:indent_len]` where `indent_len = len(line) - len(line.lstrip())`. -/
def indentOf (s : String) : String := String.mk (s.data.takeWhile pySpace)

/-- The hook-invocation statement inserted for `(filename, lineno)`,
after the two `format` substitutions. -/
def hookText (filename : String) (lineno : Nat) : String :=
  "import sleuth.inject; sleuth.inject._injector.hook(\"" ++ filename ++
    "\", " ++ toString lineno ++ ", sleuth.inject._getframe()); "

/-- One iteration of the `inject_hooks` loop: the text contributed for
input line `lineno`. -/
def rewriteLine (inj : Injector) (filename : String) (lineno : Nat)
    (line : String) : String :=
  let indent := indentOf line
  let line1 :=
    if (filename, lineno) ∈ inj.commented then indent ++ "# " ++ pyLstrip line
    else line
  if actionsAt inj filename lineno ≠ [] then
    indent ++ hookText filename lineno ++ line1
  else line1

/-- The per-line pieces of the rewritten source, in order. -/
def rewritePieces (inj : Injector) (filename : String)
    (lines : List String) : List String :=
  (lines.enumFrom 1).map (fun p => rewriteLine inj filename p.1 p.2)

/-- `_Injector.inject_hooks`: the rewritten source text. -/
def inject_hooks (inj : Injector) (filename : String)
    (lines : List String) : String :=
  String.join (rewritePieces inj filename lines)

/-! ## The object graph and the scope resolver (`sleuth/wrap.py`)

Live Python objects are node ids.  `attrs n` lists the attributes of
node `n` in `dir()` order, keeping only those whose `getattr` succeeds
(the search treats attribute-access failures as absent children);
`kind n` classifies the node for the `isinstance` filter; `qualname n`
is the function's dotted `__qualname__` already split on `'.'`, when
the attribute exists; `fname n` is `n.__name__` and `fmodule n` is
`n.__module__`, for functions. -/

inductive PyKind where
  | module
  | cls
  | func
  | other
deriving DecidableEq, Repr

structure ObjGraph where
  attrs : Nat → List (String × Nat)
  kind : Nat → PyKind
  qualname : Nat → Option (List String)
  fname : Nat → String
  fmodule : Nat → Option String

/-- `getattr(node, name)`, `None` when the lookup raises. -/
def getattrN (g : ObjGraph) (n : Nat) (name : String) : Option Nat :=
  match (g.attrs n).find? (fun p => p.1 == name) with
  | some p => some p.2
  | none => none

/-- The `isinstance(child, (type, ModuleType, FunctionType))` filter. -/
def isSearchable : PyKind → Bool
  | .module => true
  | .cls => true
  | .func => true
  | .other => false

/-- The children `search_helper` descends into: the node's attributes
in `dir()` order, restricted to modules, classes and functions. -/
def searchKids (g : ObjGraph) (n : Nat) : List Nat :=
  (g.attrs n).filterMap
    (fun p => if isSearchable (g.kind p.2) then some p.2 else none)

/-- The `for attr in dir(node)` loop of `search_helper`: try each child
in order with the given recursive step, threading the `seen` set, and
return the first path found. -/
def searchLoop (step : Nat → List Nat → Option (List Nat) × List Nat) :
    List Nat → List Nat → Option (List Nat) × List Nat
  | [], seen => (none, seen)
  | c :: rest, seen =>
    match step c seen with
    | (some p, seen') => (some p, seen')
    | (none, seen') => searchLoop step rest seen'

/-- `search_helper(goal, node, path, depth, limit, seen)`, with the
depth bookkeeping replaced by the remaining budget
`fuel = limit - depth + 1`: a node is expanded only when `fuel > 0`
(Python cuts off when `depth > limit`).  The mutable `seen` set and
`path` list are threaded explicitly; a failed subtree leaves `path`
as it was (Python pops its additions) but keeps its `seen` additions. -/
def search_helper (g : ObjGraph) (goal : Nat) :
    Nat → Nat → List Nat → List Nat → Option (List Nat) × List Nat
  | fuel, node, path, seen =>
    if node ∈ seen then (none, seen)
    else
      match fuel with
      | 0 => (none, seen)
      | fuel' + 1 =>
        let seen1 := node :: seen
        let path1 := path ++ [node]
        if node = goal then (some path1, seen1)
        else
          searchLoop (fun c s => search_helper g goal fuel' c path1 s)
            (searchKids g node) seen1

/-- The iterative-deepening driver
`for i in range(1, limit): search_helper(func, module, [], 0, i, set())`:
the pass with bound `i` gives the root a budget of `i + 1`. -/
def searchPasses (g : ObjGraph) (goal root : Nat) : List Nat → Option (List Nat)
  | [] => none
  | i :: rest =>
    match (search_helper g goal (i + 1) root [] []).1 with
    | some p => some p
    | none => searchPasses g goal root rest

/-- `_search(func, module, limit)`. -/
def pySearch (g : ObjGraph) (goal root : Nat) (limit : Nat) :
    Option (List Nat) :=
  searchPasses g goal root (List.range' 1 (limit - 1))

/-- Resolver failures: `SleuthNotFoundError` when the search exhausts
its passes, `IndexError` for `path[-2]` on a too-short path, and the
`AttributeError` a failed qualname walk raises in the old variant. -/
inductive ResolveErr where
  | notFound
  | indexErr
  | attrErr
deriving DecidableEq, Repr

/-- `path[-2]` of a Python list, `IndexError` when it does not exist. -/
def penult (path : List Nat) : Except ResolveErr Nat :=
  match path.dropLast.getLast? with
  | some p => .ok p
  | none => .error .indexErr

/-- `_get_parent_scope(func, module)` of `sleuth/wrap.py`: bounded
search with `limit=100`, then `path[-2]`, else `SleuthNotFoundError`. -/
def get_parent_scope (g : ObjGraph) (func root : Nat) :
    Except ResolveErr Nat :=
  match pySearch g func root 100 with
  | some path => penult path
  | none => .error .notFound

/-- The qualname walk of the old `_get_parent_scope` (top-level
`sleuth.py`): `path = [module]`, then
`for attr in attrs: path.append(getattr(path[-1], attr))`; a failed
lookup raises `AttributeError`. -/
def walkQual (g : ObjGraph) : List String → List Nat → Nat →
    Except ResolveErr (List Nat)
  | [], path, cur => .ok (path ++ [cur])
  | a :: rest, path, cur =>
    match getattrN g cur a with
    | none => .error .attrErr
    | some nxt => walkQual g rest (path ++ [cur]) nxt

/-- `_get_parent_scope(func, module)` of the top-level `sleuth.py`: if
the function has a `__qualname__`, walk it from the module and take
`path[-2]` of the walked path, with no verification and no fallback;
only a function without `__qualname__` uses the bounded search. -/
def get_parent_scope_v0 (g : ObjGraph) (func root : Nat) :
    Except ResolveErr Nat :=
  match g.qualname func with
  | some attrs =>
    match walkQual g attrs [] root with
    | .error e => .error e
    | .ok path => penult path
  | none =>
    match pySearch g func root 100 with
    | some path => penult path
    | none => .error .notFound

/-- Rebind `name` in one attribute table: replace the binding in place
if present, else append (a namespace has unique attribute names). -/
def attrSet : List (String × Nat) → String → Nat → List (String × Nat)
  | [], name, v => [(name, v)]
  | p :: rest, name, v =>
    if p.1 = name then (name, v) :: rest else p :: attrSet rest name v

/-- `setattr(parent, name, value)`: rebind one attribute of one node. -/
def setattrG (g : ObjGraph) (n : Nat) (name : String) (v : Nat) : ObjGraph :=
  { g with attrs := fun m =>
      if m = n then attrSet (g.attrs n) name v else g.attrs m }

/-- `tap(func, wrapper, *args, **kwargs)` of `sleuth/wrap.py`: find the
defining module in `sys.modules`, build the wrapped callable (a fresh
object, here the given node id), resolve the parent scope, and rebind
`parent.<func.__name__>` to it. -/
def tap (g : ObjGraph) (modules : List (String × Nat)) (func wrapped : Nat) :
    Except ResolveErr ObjGraph :=
  match g.fmodule func with
  | none => .error .notFound
  | some mname =>
    match (modules.find? (fun p => p.1 == mname)).map Prod.snd with
    | none => .error .notFound
    | some m =>
      match get_parent_scope g func m with
      | .error e => .error e
      | .ok parent => .ok (setattrG g parent (g.fname func) wrapped)

/-! ## `callOnException` (`sleuth/wrap.py`)

The wrapper body is

    try:
        return func(*args, **kwargs)
    except exceptionList as e:
        if not callback(func, e):
            raise

The wrapped call is a function into `Except`; the returned pair is the
wrapper's outcome (`ok none` models the implicit `None` returned after
a suppressed exception) together with the list of callback invocations,
each recording the exception value passed.  The callback's Python
return value appears through its truthiness. -/

def callOnExceptionWrapper {α β γ : Type} (func : α → Except γ β)
    (exceptionList : γ → Bool) (callback : (α → Except γ β) → γ → Bool)
    (x : α) : Except γ (Option β) × List γ :=
  match func x with
  | .ok v => (.ok (some v), [])
  | .error e =>
    if exceptionList e then
      if callback func e then (.ok none, [e])
      else (.error e, [e])
    else (.error e, [])

/-! ## Dispatcher lemmas -/

/-- A firing with no exception runs every registered action, in order. -/
theorem runActions_fired_of_err_none (env : Env) :
    ∀ (as : List Action) (fr : Frame),
      (runActions env as fr).err = none → (runActions env as fr).fired = as := by
  intro as
  induction as with
  | nil => intro fr _; rfl
  | cons a rest ih =>
    intro fr h
    rw [runActions] at h ⊢
    cases he : (applyAction env a fr).err with
    | some e =>
      simp only [he] at h
      exact Option.noConfusion h
    | none =>
      simp only [he] at h ⊢
      rw [ih _ h]

/-- Running a concatenation: the first block runs, then, if it raised
no exception, the second block continues from its final frame. -/
theorem runActions_append (env : Env) (xs ys : List Action) (fr : Frame) :
    runActions env (xs ++ ys) fr =
      let r := runActions env xs fr
      match r.err with
      | some _ => r
      | none =>
        let s := runActions env ys r.frame
        ⟨s.frame, r.events ++ s.events, r.fired ++ s.fired, s.err⟩ := by
  induction xs generalizing fr with
  | nil => simp [runActions]
  | cons a rest ih =>
    simp only [List.cons_append, runActions]
    cases he : (applyAction env a fr).err with
    | some e => simp [he]
    | none =>
      simp only [he, List.append_eq]
      rw [ih]
      cases hr : (runActions env rest (applyAction env a fr).frame).err with
      | some e => simp [runActions, he, hr]
      | none => simp [runActions, he, hr]

theorem actionsAt_add_self (inj : Injector) (filename : String) (line : Nat)
    (a : Action) :
    actionsAt (inj.add filename line a) filename line =
      actionsAt inj filename line ++ [a] := by
  simp [actionsAt, Injector.add, List.filterMap_append]

theorem actionsAt_add_ne (inj : Injector) (filename : String)
    (line line' : Nat) (a : Action) (h : line' ≠ line) :
    actionsAt (inj.add filename line a) filename line' =
      actionsAt inj filename line' := by
  simp only [actionsAt, Injector.add, List.filterMap_append]
  have hne : ((filename, line) : String × Nat) ≠ (filename, line') := by
    intro hc
    exact h (congrArg Prod.snd hc).symm
  have : (List.filterMap
      (fun p => if p.1 = (filename, line') then some p.2 else none)
      [((filename, line), a)]) = [] := by
    simp [hne]
  rw [this, List.append_nil]

theorem add_enabled (inj : Injector) (filename : String) (line : Nat)
    (a : Action) : (inj.add filename line a).enabled = inj.enabled := rfl

theorem add_commented (inj : Injector) (filename : String) (line : Nat)
    (a : Action) : (inj.add filename line a).commented = inj.commented := rfl

/-! ## Search lemmas

Structural facts about `search_helper`: the `seen` set only grows, and
a successful search returns the input `path` extended by a non-empty,
duplicate-free route from the searched node to the goal. -/

theorem searchLoop_seen_mono
    (step : Nat → List Nat → Option (List Nat) × List Nat)
    (hstep : ∀ c s x, x ∈ s → x ∈ (step c s).2) :
    ∀ kids seen x, x ∈ seen → x ∈ (searchLoop step kids seen).2 := by
  intro kids
  induction kids with
  | nil => intro seen x hx; exact hx
  | cons c rest ih =>
    intro seen x hx
    have hx' : x ∈ (step c seen).2 := hstep c seen x hx
    rw [searchLoop]
    rcases hs : step c seen with ⟨o, s'⟩
    rw [hs] at hx'
    cases o with
    | some p => exact hx'
    | none => exact ih s' x hx'

theorem search_helper_seen_mono (g : ObjGraph) (goal : Nat) :
    ∀ fuel node path seen x, x ∈ seen →
      x ∈ (search_helper g goal fuel node path seen).2 := by
  intro fuel
  induction fuel with
  | zero =>
    intro node path seen x hx
    rw [search_helper]
    by_cases hmem : node ∈ seen
    · rw [if_pos hmem]; exact hx
    · rw [if_neg hmem]; exact hx
  | succ fuel' ih =>
    intro node path seen x hx
    rw [search_helper]
    by_cases hmem : node ∈ seen
    · rw [if_pos hmem]; exact hx
    · rw [if_neg hmem]
      by_cases hgoal : node = goal
      · simp only [if_pos hgoal]
        exact List.mem_cons_of_mem _ hx
      · simp only [if_neg hgoal]
        exact searchLoop_seen_mono _
          (fun c s y hy => ih c (path ++ [node]) s y hy) _ _ x
          (List.mem_cons_of_mem _ hx)

theorem searchLoop_some
    (step : Nat → List Nat → Option (List Nat) × List Nat)
    (hmono : ∀ c s x, x ∈ s → x ∈ (step c s).2) :
    ∀ kids seen p s', searchLoop step kids seen = (some p, s') →
      ∃ c ∈ kids, ∃ s₀, (∀ x ∈ seen, x ∈ s₀) ∧ step c s₀ = (some p, s') := by
  intro kids
  induction kids with
  | nil =>
    intro seen p s' h
    rw [searchLoop] at h
    exact absurd (congrArg Prod.fst h) (by simp)
  | cons c rest ih =>
    intro seen p s' h
    rw [searchLoop] at h
    rcases hs : step c seen with ⟨o, s₁⟩
    rw [hs] at h
    cases o with
    | some p₀ =>
      refine ⟨c, by simp, seen, fun x hx => hx, ?_⟩
      rw [hs]; exact h
    | none =>
      obtain ⟨c', hc', s₀, hsub, hstep⟩ := ih s₁ p s' h
      refine ⟨c', by simp [hc'], s₀, ?_, hstep⟩
      intro x hx
      have := hmono c seen x hx
      rw [hs] at this
      exact hsub x this

theorem search_helper_some (g : ObjGraph) (goal : Nat) :
    ∀ fuel node path seen p s',
      search_helper g goal fuel node path seen = (some p, s') →
      ∃ ext, p = path ++ ext ∧ ext ≠ [] ∧ ext.head? = some node ∧
        p.getLast? = some goal ∧
        (path.Nodup → (∀ x ∈ path, x ∈ seen) → p.Nodup) := by
  intro fuel
  induction fuel with
  | zero =>
    intro node path seen p s' h
    rw [search_helper] at h
    by_cases hmem : node ∈ seen
    · rw [if_pos hmem] at h
      exact absurd (congrArg Prod.fst h) (by simp)
    · rw [if_neg hmem] at h
      exact absurd (congrArg Prod.fst h) (by simp)
  | succ fuel' ih =>
    intro node path seen p s' h
    rw [search_helper] at h
    by_cases hmem : node ∈ seen
    · rw [if_pos hmem] at h
      exact absurd (congrArg Prod.fst h) (by simp)
    · rw [if_neg hmem] at h
      by_cases hgoal : node = goal
      · simp only [if_pos hgoal] at h
        have hp : p = path ++ [node] := by
          have := congrArg Prod.fst h
          simpa using this.symm
        refine ⟨[node], hp, by simp, by simp, ?_, ?_⟩
        · rw [hp, List.getLast?_concat, hgoal]
        · intro hpnd hpsub
          rw [hp]
          have hnode : node ∉ path := fun hc => hmem (hpsub node hc)
          simp [List.nodup_append, hpnd, hnode]
      · simp only [if_neg hgoal] at h
        obtain ⟨c, hc, s₀, hsub, hstep⟩ := searchLoop_some _
          (fun c s x hx => search_helper_seen_mono g goal fuel' c
            (path ++ [node]) s x hx) _ _ p s' h
        obtain ⟨ext, hpe, hne, hhead, hlast, hnd⟩ :=
          ih c (path ++ [node]) s₀ p s' hstep
        refine ⟨node :: ext, ?_, by simp, by simp, hlast, ?_⟩
        · rw [hpe, List.append_assoc]; rfl
        · intro hpnd hpsub
          apply hnd
          · have hnode : node ∉ path := fun hc => hmem (hpsub node hc)
            simp [List.nodup_append, hpnd, hnode]
          · intro x hx
            rcases List.mem_append.mp hx with hx | hx
            · exact hsub x (List.mem_cons_of_mem _ (hpsub x hx))
            · have : x = node := by simpa using hx
              subst this
              exact hsub x (by simp)

theorem searchPasses_some (g : ObjGraph) (goal root : Nat) :
    ∀ is p, searchPasses g goal root is = some p →
      ∃ i s', search_helper g goal (i + 1) root [] [] = (some p, s') := by
  intro is
  induction is with
  | nil => intro p h; exact absurd h (by simp [searchPasses])
  | cons i rest ih =>
    intro p h
    rw [searchPasses] at h
    rcases hs : (search_helper g goal (i + 1) root [] []) with ⟨o, s'⟩
    rw [hs] at h
    cases o with
    | some q =>
      simp only at h
      refine ⟨i, s', ?_⟩
      rw [hs, Option.some_inj.mp h]
    | none => exact ih p h

/-- A successful `_search` returns a duplicate-free path from the
module to the goal function. -/
theorem pySearch_some_spec (g : ObjGraph) (goal root limit : Nat)
    (p : List Nat) (h : pySearch g goal root limit = some p) :
    p.head? = some root ∧ p.getLast? = some goal ∧ p.Nodup := by
  obtain ⟨i, s', hh⟩ := searchPasses_some g goal root _ p h
  obtain ⟨ext, hpe, hne, hhead, hlast, hnd⟩ :=
    search_helper_some g goal (i + 1) root [] [] p s' hh
  rw [List.nil_append] at hpe
  subst hpe
  exact ⟨hhead, hlast, hnd (by simp) (by simp)⟩

/-- `path[-2]` exists whenever the path's two ends differ. -/
theorem penult_ok_of_ends_ne (p : List Nat) (a b : Nat)
    (hh : p.head? = some a) (hl : p.getLast? = some b) (hne : a ≠ b) :
    ∃ x, penult p = .ok x := by
  match p with
  | [] => simp at hh
  | [y] =>
    simp at hh hl
    exact absurd (hh.symm.trans hl) hne
  | y :: z :: rest =>
    have hdrop : (y :: z :: rest).dropLast ≠ [] := by
      simp [List.dropLast]
    rcases hgl : (y :: z :: rest).dropLast.getLast? with _ | x
    · exact absurd (List.getLast?_eq_none_iff.mp hgl) hdrop
    · exact ⟨x, by rw [penult, hgl]⟩

/-- On a duplicate-free path, `path[-2]` differs from the last node. -/
theorem penult_ne_last (p : List Nat) (b x : Nat) (hnd : p.Nodup)
    (hl : p.getLast? = some b) (hx : penult p = .ok x) : x ≠ b := by
  have hxl : p.dropLast.getLast? = some x := by
    rcases hgl : p.dropLast.getLast? with _ | y
    · rw [penult, hgl] at hx; exact absurd hx (by simp)
    · rw [penult, hgl] at hx
      simp only [Except.ok.injEq] at hx
      rw [hx]
  have hxmem : x ∈ p.dropLast := by
    obtain ⟨hne', hx'⟩ := List.mem_getLast?_eq_getLast (Option.mem_def.mpr hxl)
    rw [hx']; exact List.getLast_mem hne'
  have hpeq : p.dropLast ++ [b] = p :=
    List.dropLast_append_getLast? b (Option.mem_def.mpr hl)
  intro hc
  subst hc
  rw [← hpeq] at hnd
  exact (List.nodup_append.mp hnd).2.2 hxmem (by simp)

/-! ## Patcher lemmas -/

theorem attrSet_find_self (l : List (String × Nat)) (name : String) (v : Nat) :
    (attrSet l name v).find? (fun p => p.1 == name) = some (name, v) := by
  induction l with
  | nil => simp [attrSet]
  | cons hd tl ih =>
    by_cases hhd : hd.1 = name
    · simp [attrSet, hhd]
    · simp [attrSet, hhd, ih]

theorem attrSet_find_ne (l : List (String × Nat)) (name : String) (v : Nat)
    (nm : String) (h : nm ≠ name) :
    (attrSet l name v).find? (fun p => p.1 == nm) =
      l.find? (fun p => p.1 == nm) := by
  induction l with
  | nil => simp [attrSet, Ne.symm h]
  | cons hd tl ih =>
    by_cases hhd : hd.1 = name
    · by_cases hnm : hd.1 = nm
      · exact absurd (hnm.symm.trans hhd) h
      · simp [attrSet, hhd, hnm, Ne.symm h]
    · by_cases hnm : hd.1 = nm
      · simp [attrSet, hhd, hnm, h]
      · simp [attrSet, hhd, hnm, ih]

theorem getattrN_setattrG_self (g : ObjGraph) (n : Nat) (name : String)
    (v : Nat) : getattrN (setattrG g n name v) n name = some v := by
  simp [getattrN, setattrG, attrSet_find_self]

theorem setattrG_attrs_ne (g : ObjGraph) (n : Nat) (name : String) (v m : Nat)
    (h : m ≠ n) : (setattrG g n name v).attrs m = g.attrs m := by
  simp [setattrG, h]

theorem getattrN_setattrG_other (g : ObjGraph) (n : Nat) (name : String)
    (v m : Nat) (nm : String) (h : ¬(m = n ∧ nm = name)) :
    getattrN (setattrG g n name v) m nm = getattrN g m nm := by
  by_cases hm : m = n
  · have hnm : nm ≠ name := fun hc => h ⟨hm, hc⟩
    subst hm
    simp [getattrN, setattrG, attrSet_find_ne _ _ _ _ hnm]
  · simp [getattrN, setattrG, hm]

/-- A successful `_get_parent_scope` comes from a successful search,
and its result is `path[-2]`, never the function itself. -/
theorem get_parent_scope_ok_spec (g : ObjGraph) (func root parent : Nat)
    (h : get_parent_scope g func root = .ok parent) :
    ∃ path, pySearch g func root 100 = some path ∧
      penult path = .ok parent ∧ parent ≠ func := by
  rcases hs : pySearch g func root 100 with _ | path
  · rw [get_parent_scope, hs] at h
    exact absurd h (by simp)
  · rw [get_parent_scope, hs] at h
    obtain ⟨hh, hl, hnd⟩ := pySearch_some_spec g func root 100 path hs
    exact ⟨path, rfl, h, penult_ne_last path func parent hnd hl h⟩

/-! ## The search reads only the attribute table and the kind map -/

theorem searchLoop_congr
    (step₁ step₂ : Nat → List Nat → Option (List Nat) × List Nat)
    (h : ∀ c s, step₁ c s = step₂ c s) :
    ∀ kids seen, searchLoop step₁ kids seen = searchLoop step₂ kids seen := by
  intro kids
  induction kids with
  | nil => intro seen; rfl
  | cons c rest ih =>
    intro seen
    rw [searchLoop, searchLoop, h c seen]
    rcases step₂ c seen with ⟨o, s'⟩
    cases o with
    | some p => rfl
    | none => exact ih s'

theorem search_helper_qualname_irrel (g : ObjGraph)
    (q : Nat → Option (List String)) (goal : Nat) :
    ∀ fuel node path seen,
      search_helper { g with qualname := q } goal fuel node path seen =
        search_helper g goal fuel node path seen := by
  intro fuel
  induction fuel with
  | zero =>
    intro node path seen
    rw [search_helper, search_helper]
  | succ fuel' ih =>
    intro node path seen
    rw [search_helper, search_helper]
    by_cases hmem : node ∈ seen
    · rw [if_pos hmem, if_pos hmem]
    · rw [if_neg hmem, if_neg hmem]
      by_cases hgoal : node = goal
      · simp only [if_pos hgoal]
      · simp only [if_neg hgoal]
        exact searchLoop_congr _ _ (fun c s => ih c (path ++ [node]) s) _ _

theorem pySearch_qualname_irrel (g : ObjGraph)
    (q : Nat → Option (List String)) (goal root limit : Nat) :
    pySearch { g with qualname := q } goal root limit =
      pySearch g goal root limit := by
  rw [pySearch, pySearch]
  induction List.range' 1 (limit - 1) with
  | nil => rfl
  | cons i rest ih =>
    rw [searchPasses, searchPasses, search_helper_qualname_irrel]
    rcases search_helper g goal (i + 1) root [] [] with ⟨o, s'⟩
    cases o with
    | some p => rfl
    | none => exact ih

/-! ## Rewriter index lemmas -/

theorem mem_enumFrom_le_lt {α : Type} :
    ∀ (l : List α) (k n : Nat) (x : α), (n, x) ∈ l.enumFrom k →
      k ≤ n ∧ n < k + l.length := by
  intro l
  induction l with
  | nil => intro k n x h; simp [List.enumFrom] at h
  | cons a t ih =>
    intro k n x h
    rw [List.enumFrom] at h
    rcases List.mem_cons.mp h with h | h
    · have hnk : n = k := congrArg Prod.fst h
      subst hnk
      exact ⟨Nat.le_refl n, by simp⟩
    · obtain ⟨h1, h2⟩ := ih (k + 1) n x h
      refine ⟨by omega, ?_⟩
      simp only [List.length_cons]
      omega

theorem rewritePieces_length (inj : Injector) (filename : String)
    (lines : List String) :
    (rewritePieces inj filename lines).length = lines.length := by
  simp [rewritePieces, List.enumFrom_length]

theorem rewritePieces_getElem? (inj : Injector) (filename : String)
    (lines : List String) (i : Nat) (h : i < lines.length) :
    (rewritePieces inj filename lines)[i]? =
      some (rewriteLine inj filename (1 + i) lines[i]) := by
  simp [rewritePieces, List.getElem?_map, List.getElem?_enumFrom,
    List.getElem?_eq_getElem h]

/-! ## Claim theorems -/

/-- C3: whenever the Registry's global gate is disabled, a hook call
with any (file, line, frame) runs no action and has no effect: the
frame is untouched, no events are emitted, nothing fires and no
exception escapes — only the gate check happens. -/
theorem C3_gate_disabled_hook_noop (env : Env) (inj : Injector)
    (filename : String) (line : Nat) (fr : Frame)
    (hdis : inj.enabled = false) :
    Injector.hook env inj filename line fr = ⟨fr, [], [], none⟩ := by
  rw [Injector.hook, if_neg]
  rw [hdis]
  exact Bool.false_ne_true

theorem C3_gate_disabled_hook_noop_witness :
    (Injector.disable ⟨[], [], true⟩).enabled = false ∧
    Injector.hook ⟨fun _ _ _ => none, fun _ g l => .ok (g, l)⟩
        (Injector.disable ⟨[], [], true⟩) "a.py" 3 ⟨[("x", "1")], []⟩ =
      ⟨⟨[("x", "1")], []⟩, [], [], none⟩ := by
  refine ⟨rfl, ?_⟩
  exact C3_gate_disabled_hook_noop _ _ "a.py" 3 _ rfl

/-- C2: with the gate enabled, the actions registered at one location
fire in exactly registration order — appending registrations `a` then
`b` makes the hook run the previously registered actions, then `a`,
then `b` — and registering the same action twice makes it fire twice,
with no deduplication. -/
theorem C2_actions_fire_in_registration_order (env : Env) (inj : Injector)
    (filename : String) (line : Nat) (fr : Frame) (a b : Action)
    (hen : inj.enabled = true)
    (herr : (Injector.hook env ((inj.add filename line a).add filename line b)
        filename line fr).err = none) :
    (Injector.hook env ((inj.add filename line a).add filename line b)
        filename line fr).fired = actionsAt inj filename line ++ [a, b] ∧
    (b = a →
      (Injector.hook env ((inj.add filename line a).add filename line b)
          filename line fr).fired.count a =
        (actionsAt inj filename line).count a + 2) := by
  have hacts : actionsAt ((inj.add filename line a).add filename line b)
      filename line = actionsAt inj filename line ++ [a, b] := by
    rw [actionsAt_add_self, actionsAt_add_self, List.append_assoc]
    rfl
  have hen2 : ((inj.add filename line a).add filename line b).enabled = true :=
    hen
  rw [Injector.hook, if_pos hen2, hacts] at herr ⊢
  have hfired := runActions_fired_of_err_none env _ fr herr
  refine ⟨hfired, fun hba => ?_⟩
  rw [hfired, hba]
  simp [List.count_append]

def injC2 : Injector := Injector.enable ⟨[], [], false⟩

def envC2 : Env := ⟨fun _ _ _ => none, fun _ g l => .ok (g, l)⟩

def printA : Action := .print "hello" none

def callB : Action := .call 7 [] []

theorem C2_actions_fire_in_registration_order_witness :
    injC2.enabled = true ∧
    (Injector.hook envC2 ((injC2.add "a.py" 1 printA).add "a.py" 1 callB)
        "a.py" 1 ⟨[], []⟩).err = none ∧
    (Injector.hook envC2 ((injC2.add "a.py" 1 printA).add "a.py" 1 callB)
        "a.py" 1 ⟨[], []⟩).fired = [printA, callB] ∧
    (Injector.hook envC2 ((injC2.add "a.py" 1 printA).add "a.py" 1 printA)
        "a.py" 1 ⟨[], []⟩).fired.count printA = 2 := by
  have h1 := C2_actions_fire_in_registration_order envC2 injC2 "a.py" 1
    ⟨[], []⟩ printA callB rfl (by rfl)
  have h2 := C2_actions_fire_in_registration_order envC2 injC2 "a.py" 1
    ⟨[], []⟩ printA printA rfl (by rfl)
  refine ⟨rfl, by rfl, ?_, ?_⟩
  · have := h1.1
    simpa [injC2, Injector.enable, actionsAt] using this
  · have := h2.2 rfl
    simpa [injC2, Injector.enable, actionsAt] using this

/-- C7: an exception raised inside an action propagates out of the
hook unmodified — the dispatcher installs no handler — and the actions
registered after the failing one do not run on that firing. -/
theorem C7_action_exception_propagates (env : Env) (inj : Injector)
    (filename : String) (line : Nat) (fr : Frame)
    (pre post : List Action) (bad : Action) (e : Err)
    (hen : inj.enabled = true)
    (hsplit : actionsAt inj filename line = pre ++ bad :: post)
    (hpre : (runActions env pre fr).err = none)
    (hbad : (applyAction env bad (runActions env pre fr).frame).err = some e) :
    (Injector.hook env inj filename line fr).err = some e ∧
    (Injector.hook env inj filename line fr).fired = pre ++ [bad] := by
  rw [Injector.hook, if_pos hen, hsplit, runActions_append]
  simp only [hpre]
  rw [runActions]
  simp only [hbad]
  refine ⟨by trivial, ?_⟩
  rw [runActions_fired_of_err_none env pre fr hpre]

def injC7 : Injector :=
  ((Injector.enable ⟨[], [], false⟩).add "a.py" 2
      (.print "{oops}" none)).add "a.py" 2 (.brk "pdb")

theorem C7_action_exception_propagates_witness :
    injC7.enabled = true ∧
    actionsAt injC7 "a.py" 2 = [] ++ Action.print "{oops}" none :: [.brk "pdb"] ∧
    (runActions envC2 [] ⟨[], []⟩).err = none ∧
    (applyAction envC2 (.print "{oops}" none)
        (runActions envC2 [] ⟨[], []⟩).frame).err =
      some (.fmt (.keyError "oops")) ∧
    (Injector.hook envC2 injC7 "a.py" 2 ⟨[], []⟩).err =
      some (.fmt (.keyError "oops")) ∧
    (Injector.hook envC2 injC7 "a.py" 2 ⟨[], []⟩).fired =
      [] ++ [Action.print "{oops}" none] := by
  have h := C7_action_exception_propagates envC2 injC7 "a.py" 2 ⟨[], []⟩
    [] [.brk "pdb"] (.print "{oops}" none) (.fmt (.keyError "oops"))
    rfl (by rfl) rfl (by rfl)
  exact ⟨rfl, by rfl, rfl, by rfl, h.1, h.2⟩

/-- C8: a `_Print` or `_Log` action whose template references a name
unbound in the merged execution context fails to render: the action
raises the format failure (the `KeyError` the spec's taxonomy calls
`FormatError`) and emits no output event, so the failure is never
silently dropped. -/
theorem C8_unbound_template_name_raises (env : Env) (fr : Frame)
    (fmtStr : String) (file : Option String) (level : Nat)
    (logName : String) (nm : String)
    (href : nm ∈ templateRefs fmtStr)
    (hmiss : dictGet (dictUpdate fr.f_globals fr.f_locals) nm = none) :
    (∃ nm', (applyAction env (.print fmtStr file) fr).err =
        some (.fmt (.keyError nm')) ∧
      (applyAction env (.print fmtStr file) fr).events = []) ∧
    (∃ nm', (applyAction env (.log fmtStr level (some logName)) fr).err =
        some (.fmt (.keyError nm')) ∧
      (applyAction env (.log fmtStr level (some logName)) fr).events = []) := by
  obtain ⟨nm', hfmt⟩ := pyFormat_unbound _ fmtStr nm href hmiss
  constructor
  · exact ⟨nm', by simp [applyAction, hfmt], by simp [applyAction, hfmt]⟩
  · exact ⟨nm', by simp [applyAction, hfmt], by simp [applyAction, hfmt]⟩

theorem C8_unbound_template_name_raises_witness :
    "oops" ∈ templateRefs "{oops}" ∧
    dictGet (dictUpdate ([("x", "1")] : Dict) [("y", "2")]) "oops" = none ∧
    (applyAction envC2 (.print "{oops}" none) ⟨[("x", "1")], [("y", "2")]⟩).err =
      some (.fmt (.keyError "oops")) := by
  have h := C8_unbound_template_name_raises envC2 ⟨[("x", "1")], [("y", "2")]⟩
    "{oops}" none 10 "alog" "oops" (by decide) (by rfl)
  obtain ⟨nm', h1, _⟩ := h.1
  refine ⟨by decide, by rfl, ?_⟩
  have : nm' = "oops" := by
    have := h1
    rw [show (applyAction envC2 (.print "{oops}" none)
        ⟨[("x", "1")], [("y", "2")]⟩).err =
      some (.fmt (.keyError "oops")) from rfl] at this
    simpa using this.symm
  rw [← this]
  exact h1

/-- C10: every `_Print`, `_Log` and `_Call` firing builds its context
with `frame.f_globals.update(frame.f_locals)` on the frame's real
globals dict, so after the action fires (successfully or not) the
frame's globals are the merged dict and every local name is now bound
in it, overwriting any same-named global. -/
theorem C10_actions_merge_locals_into_real_globals (env : Env) (fr : Frame)
    (hnd : (fr.f_locals.map Prod.fst).Nodup) :
    (∀ fmtStr file,
      (applyAction env (.print fmtStr file) fr).frame.f_globals =
        dictUpdate fr.f_globals fr.f_locals) ∧
    (∀ fmtStr level logName,
      (applyAction env (.log fmtStr level logName) fr).frame.f_globals =
        dictUpdate fr.f_globals fr.f_locals) ∧
    (∀ funcId args kwargs,
      (applyAction env (.call funcId args kwargs) fr).frame.f_globals =
        dictUpdate fr.f_globals fr.f_locals) ∧
    (∀ k v, dictGet fr.f_locals k = some v →
      dictGet (dictUpdate fr.f_globals fr.f_locals) k = some v) := by
  refine ⟨?_, ?_, ?_, ?_⟩
  · intro fmtStr file
    cases hpf : pyFormat (dictUpdate fr.f_globals fr.f_locals) fmtStr <;>
      simp [applyAction, hpf]
  · intro fmtStr level logName
    cases logName with
    | some n =>
      cases hpf : pyFormat (dictUpdate fr.f_globals fr.f_locals) fmtStr <;>
        simp [applyAction, hpf]
    | none =>
      cases hn : dictGet (dictUpdate fr.f_globals fr.f_locals) "__name__" with
      | none => simp [applyAction, hn]
      | some n =>
        cases hpf : pyFormat (dictUpdate fr.f_globals fr.f_locals) fmtStr <;>
          simp [applyAction, hn, hpf]
  · intro funcId args kwargs
    cases ha : resolveArgs (dictUpdate fr.f_globals fr.f_locals) args with
    | error e => simp [applyAction, ha]
    | ok argv =>
      cases hk : resolveKwargs (dictUpdate fr.f_globals fr.f_locals) kwargs with
      | error e => simp [applyAction, ha, hk]
      | ok kwv =>
        cases hc : env.callSem funcId argv kwv <;>
          simp [applyAction, ha, hk, hc]
  · intro k v h
    exact dictGet_dictUpdate_of_mem _ _ _ _ hnd h

theorem C10_actions_merge_locals_into_real_globals_witness :
    ((([("x", "1"), ("y", "9")] : Dict).map Prod.fst).Nodup) ∧
    (applyAction envC2 (.print "hi" none)
        ⟨[("x", "1"), ("y", "9")], [("y", "2")]⟩).frame.f_globals =
      dictUpdate [("x", "1"), ("y", "9")] [("y", "2")] ∧
    dictGet (dictUpdate ([("x", "1"), ("y", "9")] : Dict) [("y", "2")]) "y" =
      some "2" := by
  have h := C10_actions_merge_locals_into_real_globals envC2
    ⟨[("x", "1"), ("y", "9")], [("y", "2")]⟩ (by decide)
  exact ⟨by decide, h.1 "hi" none, h.2.2.2 "y" "2" (by rfl)⟩

/-- C9: a function wrapped with `callOnException`, on a call raising a
matching exception, invokes the callback exactly once with the raised
exception value; a truthy callback result suppresses the exception
(the wrapper returns `None`), while a falsy one — Python's default for
a callback that returns no value — re-raises it unchanged. -/
theorem C9_callOnException_callback_decides {α β γ : Type}
    (func : α → Except γ β) (exceptionList : γ → Bool)
    (callback : (α → Except γ β) → γ → Bool) (x : α) (e : γ)
    (hraise : func x = .error e) (hmatch : exceptionList e = true) :
    (callOnExceptionWrapper func exceptionList callback x).2 = [e] ∧
    (callback func e = true →
      (callOnExceptionWrapper func exceptionList callback x).1 = .ok none) ∧
    (callback func e = false →
      (callOnExceptionWrapper func exceptionList callback x).1 =
        .error e) := by
  rw [callOnExceptionWrapper]
  simp only [hraise, hmatch, if_true]
  cases hcb : callback func e <;> simp [hcb]

theorem C9_callOnException_callback_decides_witness :
    ((fun _ : Nat => (Except.error 5 : Except Nat Nat)) 0 = .error 5) ∧
    ((fun _ : Nat => true) 5 = true) ∧
    (callOnExceptionWrapper (fun _ : Nat => (Except.error 5 : Except Nat Nat))
        (fun _ => true) (fun _ _ => true) 0).2 = [5] ∧
    (callOnExceptionWrapper (fun _ : Nat => (Except.error 5 : Except Nat Nat))
        (fun _ => true) (fun _ _ => true) 0).1 = .ok none ∧
    (callOnExceptionWrapper (fun _ : Nat => (Except.error 5 : Except Nat Nat))
        (fun _ => true) (fun _ _ => false) 0).1 = .error 5 := by
  have ht := C9_callOnException_callback_decides
    (fun _ : Nat => (Except.error 5 : Except Nat Nat)) (fun _ => true)
    (fun _ _ => true) 0 5 rfl rfl
  have hf := C9_callOnException_callback_decides
    (fun _ : Nat => (Except.error 5 : Except Nat Nat)) (fun _ => true)
    (fun _ _ => false) 0 5 rfl rfl
  exact ⟨rfl, rfl, ht.1, ht.2.1 rfl, hf.2.2 rfl⟩

/-- C1: rewriting inserts, for each registered in-range line number,
exactly one hook-invocation statement, placed immediately before that
line's (possibly commented-out) statement and prefixed with the line's
exact leading whitespace; every line neither registered nor commented
is emitted byte-identical; and a registration past the end of the
source changes nothing and raises nothing. -/
theorem C1_inject_hooks_line_shape (inj : Injector) (filename : String)
    (lines : List String) :
    (rewritePieces inj filename lines).length = lines.length ∧
    (∀ i (h : i < lines.length),
      (actionsAt inj filename (1 + i) ≠ [] →
        (rewritePieces inj filename lines)[i]? =
          some (indentOf lines[i] ++ hookText filename (1 + i) ++
            (if (filename, 1 + i) ∈ inj.commented then
               indentOf lines[i] ++ "# " ++ pyLstrip lines[i]
             else lines[i]))) ∧
      (actionsAt inj filename (1 + i) = [] →
        (filename, 1 + i) ∉ inj.commented →
        (rewritePieces inj filename lines)[i]? = some lines[i])) ∧
    (∀ L a, lines.length < L →
      inject_hooks (inj.add filename L a) filename lines =
        inject_hooks inj filename lines) := by
  refine ⟨rewritePieces_length inj filename lines, ?_, ?_⟩
  · intro i h
    constructor
    · intro hreg
      rw [rewritePieces_getElem? inj filename lines i h]
      simp [rewriteLine, hreg]
    · intro hreg hcom
      rw [rewritePieces_getElem? inj filename lines i h]
      simp [rewriteLine, hreg, hcom]
  · intro L a hL
    rw [inject_hooks, inject_hooks, rewritePieces, rewritePieces]
    congr 1
    apply List.map_congr_left
    intro p hp
    rcases p with ⟨n, line⟩
    obtain ⟨hge, hlt⟩ := mem_enumFrom_le_lt lines 1 n line hp
    have hnL : n ≠ L := by omega
    simp only [rewriteLine, actionsAt_add_ne inj filename L n a hnL,
      add_commented]

def injC1 : Injector := (Injector.enable ⟨[], [], false⟩).add "a.py" 1 printA

def linesC1 : List String := ["x = 1\n", "  y = 2\n"]

theorem C1_inject_hooks_line_shape_witness :
    (rewritePieces injC1 "a.py" linesC1).length = linesC1.length ∧
    (actionsAt injC1 "a.py" 1 ≠ [] ∧
      (rewritePieces injC1 "a.py" linesC1)[0]? =
        some (indentOf "x = 1\n" ++ hookText "a.py" 1 ++ "x = 1\n")) ∧
    (actionsAt injC1 "a.py" 2 = [] ∧ ("a.py", 2) ∉ injC1.commented ∧
      (rewritePieces injC1 "a.py" linesC1)[1]? = some "  y = 2\n") ∧
    (linesC1.length < 5 ∧
      inject_hooks (injC1.add "a.py" 5 callB) "a.py" linesC1 =
        inject_hooks injC1 "a.py" linesC1) := by
  have h := C1_inject_hooks_line_shape injC1 "a.py" linesC1
  have h1 := (h.2.1 0 (by decide)).1 (by decide)
  have h2 := (h.2.1 1 (by decide)).2 (by decide) (by decide)
  have h3 := h.2.2 5 callB (by decide)
  refine ⟨h.1, ⟨by decide, ?_⟩, ⟨by decide, by decide, ?_⟩, by decide, h3⟩
  · simpa [injC1, Injector.enable, Injector.add, linesC1] using h1
  · simpa [linesC1] using h2

/-- The simplest module-scope layout: node 0 is a module whose
attribute `f` is the function node 1. -/
def gMod : ObjGraph where
  attrs n := if n = 0 then [("f", 1)] else []
  kind n := if n = 0 then .module else if n = 1 then .func else .other
  qualname _ := none
  fname n := if n = 1 then "f" else ""
  fmodule n := if n = 1 then some "m" else none

/-- A class-nested layout: module 0 holds class `C` (node 1), which
holds method `m` (function node 2). -/
def gCls : ObjGraph where
  attrs n :=
    if n = 0 then [("C", 1)] else if n = 1 then [("m", 2)] else []
  kind n :=
    if n = 0 then .module
    else if n = 1 then .cls
    else if n = 2 then .func
    else .other
  qualname _ := none
  fname n := if n = 2 then "m" else ""
  fmodule n := if n = 2 then some "mod" else none

/-- C4: when the bounded search (hard cap 100) discovers a
module-to-function path, `_get_parent_scope` returns exactly that
path's second-to-last node — the module for a module-scope function,
the class for a class-nested one — and when no path is found within
the cap it raises `SleuthNotFoundError`. -/
theorem C4_parent_scope_is_penultimate (g : ObjGraph) (func root : Nat)
    (hne : root ≠ func) :
    (∀ path, pySearch g func root 100 = some path →
      ∃ p, penult path = .ok p ∧ get_parent_scope g func root = .ok p) ∧
    (pySearch g func root 100 = none →
      get_parent_scope g func root = .error .notFound) ∧
    get_parent_scope gMod 1 0 = .ok 0 ∧
    get_parent_scope gCls 2 0 = .ok 1 := by
  refine ⟨?_, ?_, by rfl, by rfl⟩
  · intro path hp
    obtain ⟨hh, hl, hnd⟩ := pySearch_some_spec g func root 100 path hp
    obtain ⟨x, hx⟩ := penult_ok_of_ends_ne path root func hh hl hne
    refine ⟨x, hx, ?_⟩
    simp only [get_parent_scope, hp]
    exact hx
  · intro hnone
    simp only [get_parent_scope, hnone]

theorem C4_parent_scope_is_penultimate_witness :
    (0 : Nat) ≠ 1 ∧
    pySearch gMod 1 0 100 = some [0, 1] ∧
    penult [0, 1] = .ok 0 ∧
    get_parent_scope gMod 1 0 = .ok 0 ∧
    get_parent_scope gCls 2 0 = .ok 1 := by
  have h := C4_parent_scope_is_penultimate gMod 1 0 (by decide)
  obtain ⟨p, hp1, hp2⟩ := h.1 [0, 1] (by rfl)
  have hp0 : p = 0 := by
    have h00 : (Except.ok 0 : Except ResolveErr Nat) = .ok p := by
      rw [← hp1]; rfl
    injection h00 with h00
    exact h00.symm
  subst hp0
  exact ⟨by decide, by rfl, hp1, hp2, h.2.2.2⟩

/-- The stale-qualname layout refuting C5: module 0 holds class `A`
(node 1) and the target function `f` (node 3); `A.b` is a different
function (node 2); node 3 still carries the stale `__qualname__`
`"A.b"`. -/
def gC5 : ObjGraph where
  attrs n :=
    if n = 0 then [("A", 1), ("f", 3)]
    else if n = 1 then [("b", 2)] else []
  kind n :=
    if n = 0 then .module
    else if n = 1 then .cls
    else if n ≤ 3 then .func
    else .other
  qualname n := if n = 3 then some ["A", "b"] else none
  fname n := if n = 3 then "f" else ""
  fmodule n := if n = 3 then some "m" else none

/-- `gC5` with a qualname whose walk fails at its second step. -/
def gC5n : ObjGraph :=
  { gC5 with qualname := fun n => if n = 3 then some ["A", "nope"] else none }

/-- C5 counterexample: on `gC5` the old resolver walks the stale
qualname `A.b`, lands on function 2 — not the original function 3, so
the claimed verification would fail — yet returns `A` (node 1) instead
of falling through to the bounded search, which resolves the true
parent, module 0. -/
theorem C5_counterexample_no_verification_no_fallthrough :
    gC5.qualname 3 = some ["A", "b"] ∧
    walkQual gC5 ["A", "b"] [] 0 = .ok [0, 1, 2] ∧
    (2 : Nat) ≠ 3 ∧
    get_parent_scope_v0 gC5 3 0 = .ok 1 ∧
    get_parent_scope gC5 3 0 = .ok 0 ∧
    get_parent_scope_v0 gC5 3 0 ≠ get_parent_scope gC5 3 0 := by
  refine ⟨rfl, rfl, by decide, rfl, rfl, ?_⟩
  intro hc
  rw [show get_parent_scope_v0 gC5 3 0 = Except.ok 1 from rfl,
    show get_parent_scope gC5 3 0 = Except.ok 0 from rfl] at hc
  injection hc with hc
  exact absurd hc (by decide)

/-- C5 (amended): the later resolver (`sleuth/wrap.py`) attempts no
fast path — its result is independent of any dotted lexical path — and
in the earlier variant (`sleuth.py`) a function carrying a
`__qualname__` is resolved by walking the dotted path from the module
with no verification that the final lookup yields the original
function: the walk's `path[-2]` is returned whatever the final object
is, a failing lookup raises instead of falling through, and the
bounded graph search runs only when the function has no
`__qualname__`. -/
theorem C5_amended_fast_path_behaviour (g : ObjGraph) (func root : Nat) :
    (∀ attrs e, g.qualname func = some attrs →
      walkQual g attrs [] root = .error e →
      get_parent_scope_v0 g func root = .error e) ∧
    (∀ attrs path, g.qualname func = some attrs →
      walkQual g attrs [] root = .ok path →
      get_parent_scope_v0 g func root = penult path) ∧
    (g.qualname func = none →
      get_parent_scope_v0 g func root = get_parent_scope g func root) ∧
    (∀ q, get_parent_scope { g with qualname := q } func root =
      get_parent_scope g func root) := by
  refine ⟨?_, ?_, ?_, ?_⟩
  · intro attrs e hq hw
    simp only [get_parent_scope_v0, hq, hw]
  · intro attrs path hq hw
    simp only [get_parent_scope_v0, hq, hw]
  · intro hq
    simp only [get_parent_scope_v0, get_parent_scope, hq]
  · intro q
    rw [get_parent_scope, get_parent_scope, pySearch_qualname_irrel]

theorem C5_amended_fast_path_behaviour_witness :
    gC5n.qualname 3 = some ["A", "nope"] ∧
    walkQual gC5n ["A", "nope"] [] 0 = .error .attrErr ∧
    get_parent_scope_v0 gC5n 3 0 = .error .attrErr ∧
    gC5.qualname 3 = some ["A", "b"] ∧
    walkQual gC5 ["A", "b"] [] 0 = .ok [0, 1, 2] ∧
    get_parent_scope_v0 gC5 3 0 = penult [0, 1, 2] ∧
    ({ gC5 with qualname := fun _ => none }).qualname 3 = none ∧
    get_parent_scope_v0 { gC5 with qualname := fun _ => none } 3 0 =
      get_parent_scope { gC5 with qualname := fun _ => none } 3 0 ∧
    get_parent_scope { gC5 with qualname := fun _ => none } 3 0 =
      get_parent_scope gC5 3 0 := by
  have h1 := C5_amended_fast_path_behaviour gC5n 3 0
  have h2 := C5_amended_fast_path_behaviour gC5 3 0
  have h3 := C5_amended_fast_path_behaviour
    { gC5 with qualname := fun _ => none } 3 0
  refine ⟨rfl, rfl, ?_, rfl, rfl, ?_, rfl, ?_, ?_⟩
  · exact h1.1 ["A", "nope"] .attrErr rfl rfl
  · exact h2.2.1 ["A", "b"] [0, 1, 2] rfl rfl
  · exact h3.2.2.1 rfl
  · exact h2.2.2.2 (fun _ => none)

/-- C6: a successful `tap` rebinds exactly one attribute — the one
named by the function's simple name, on the one resolved container —
to the wrapped callable; every other attribute of every node,
including everything on the original function object itself, is
untouched, so any alias bound to the original function elsewhere still
refers to the original. -/
theorem C6_tap_rebinds_exactly_one_attribute (g : ObjGraph)
    (modules : List (String × Nat)) (func wrapped : Nat) (g' : ObjGraph)
    (h : tap g modules func wrapped = .ok g') :
    ∃ m parent, get_parent_scope g func m = .ok parent ∧ parent ≠ func ∧
      getattrN g' parent (g.fname func) = some wrapped ∧
      (∀ n, n ≠ parent → g'.attrs n = g.attrs n) ∧
      g'.attrs func = g.attrs func ∧
      (∀ n nm, ¬(n = parent ∧ nm = g.fname func) →
        getattrN g' n nm = getattrN g n nm) ∧
      (∀ n nm, ¬(n = parent ∧ nm = g.fname func) →
        getattrN g n nm = some func → getattrN g' n nm = some func) ∧
      g'.kind = g.kind ∧ g'.qualname = g.qualname ∧
      g'.fname = g.fname ∧ g'.fmodule = g.fmodule := by
  rcases hm : g.fmodule func with _ | mname
  · rw [tap, hm] at h
    exact absurd h (by simp)
  · simp only [tap, hm] at h
    rcases hmod : (modules.find? (fun p => p.1 == mname)).map Prod.snd
      with _ | m
    · simp only [hmod] at h
      exact absurd h (by simp)
    · simp only [hmod] at h
      rcases hps : get_parent_scope g func m with e | parent
      · simp only [hps] at h
        exact absurd h (by simp)
      · simp only [hps, Except.ok.injEq] at h
        obtain ⟨path, hpath, hpen, hne⟩ :=
          get_parent_scope_ok_spec g func m parent hps
        subst h
        refine ⟨m, parent, hps, hne,
          getattrN_setattrG_self g parent (g.fname func) wrapped,
          fun n hn => setattrG_attrs_ne g parent (g.fname func) wrapped n hn,
          setattrG_attrs_ne g parent (g.fname func) wrapped func
            (Ne.symm hne), ?_, ?_, rfl, rfl, rfl, rfl⟩
        · intro n nm hok
          exact getattrN_setattrG_other g parent (g.fname func) wrapped n nm
            hok
        · intro n nm hok halias
          rw [getattrN_setattrG_other g parent (g.fname func) wrapped n nm
            hok]
          exact halias

/-- A minimal patch target: module 0 holds function 1 under name `f`;
node 9 stands for the wrapped callable `wrapper(...)(func)`. -/
def gTap : ObjGraph where
  attrs n := if n = 0 then [("f", 1), ("g", 1)] else []
  kind n := if n = 0 then .module else if n = 1 then .func else .other
  qualname _ := none
  fname n := if n = 1 then "f" else ""
  fmodule n := if n = 1 then some "m" else none

def gTapPatched : ObjGraph := setattrG gTap 0 "f" 9

theorem C6_tap_rebinds_exactly_one_attribute_witness :
    tap gTap [("m", 0)] 1 9 = .ok gTapPatched ∧
    getattrN gTapPatched 0 "g" = some 1 ∧
    (∃ m parent, get_parent_scope gTap 1 m = .ok parent ∧ parent ≠ 1 ∧
      getattrN gTapPatched parent (gTap.fname 1) = some 9 ∧
      gTapPatched.attrs 1 = gTap.attrs 1) := by
  obtain ⟨m, parent, hps, hne, hself, hoa, hfunc, hother, halias, _⟩ :=
    C6_tap_rebinds_exactly_one_attribute gTap [("m", 0)] 1 9 gTapPatched rfl
  refine ⟨rfl, ?_, m, parent, hps, hne, hself, hfunc⟩
  refine halias 0 "g" (fun hc => ?_) (by rfl)
  have : ("g" : String) = "f" := by simpa [gTap] using hc.2
  exact absurd this (by decide)

end Sleuth
